import Mathlib

/-
Verification of the run-mapper route engine against its specification.

The development embeds the route-geometry and signal-processing core of
the application source (waypoint history, geometry kernel, elevation
pipeline, playback animator) as Lean definitions.  Numbers that the
source manipulates as IEEE doubles are modelled as exact rationals; the
square root produced by Math.sqrt is modelled over the reals where the
distance value itself matters, and comparisons of square roots of
nonnegative rationals are modelled by the equivalent comparisons of the
radicands (justified by lemmas below).  UI-only effects (icons, canvas
drawing, map layers) are outside the model; the state fields they read
are kept where a claim mentions them.
-/

set_option maxHeartbeats 1000000

namespace RunMapper

/-- A latitude/longitude pair, modelled with exact rationals. -/
abbrev Coord : Type := ℚ × ℚ

/-! ## WaypointHistory

Source: the component state `waypoints`, `history`, `historyIndex` and
the functions `commitWaypoints`, `undo`, `redo`, `clearRoute` together
with the derived flags `canUndo`, `canRedo`.
-/

/-- The history-related part of the component state: the snapshot stack
`history`, the cursor `historyIndex` and the current list `waypoints`. -/
structure HistState where
  history : List (List Coord)
  historyIndex : ℕ
  waypoints : List Coord
  deriving DecidableEq, Repr

/-- Initial state: `useState` initialisers `history = [initialWaypoints]`,
`historyIndex = 0`, `waypoints = initialWaypoints`. -/
def initHist (initialWaypoints : List Coord) : HistState :=
  { history := [initialWaypoints], historyIndex := 0, waypoints := initialWaypoints }

/-- Source: `const canUndo = historyIndex > 0`. -/
def canUndo (s : HistState) : Bool := decide (0 < s.historyIndex)

/-- Source: `const canRedo = historyIndex < history.length - 1`. -/
def canRedo (s : HistState) : Bool := decide (s.historyIndex < s.history.length - 1)

/-- Source: `commitWaypoints`.  A commit of a list structurally equal to
the current one returns early (the JSON.stringify comparison); otherwise
the stack is truncated to `historyIndex + 1` entries, the new list is
appended, the cursor advances and the new list becomes current.  The
routing-control side effects are outside the history model. -/
def commitWaypoints (newWps : List Coord) (s : HistState) : HistState :=
  if newWps = s.waypoints then s
  else
    { history := s.history.take (s.historyIndex + 1) ++ [newWps]
      historyIndex := s.historyIndex + 1
      waypoints := newWps }

/-- Source: `undo`.  Guarded by `canUndo`; moves the cursor down one and
loads the snapshot there. -/
def undo (s : HistState) : HistState :=
  if canUndo s then
    { s with historyIndex := s.historyIndex - 1
             waypoints := s.history.getD (s.historyIndex - 1) [] }
  else s

/-- Source: `redo`.  Guarded by `canRedo`; moves the cursor up one and
loads the snapshot there. -/
def redo (s : HistState) : HistState :=
  if canRedo s then
    { s with historyIndex := s.historyIndex + 1
             waypoints := s.history.getD (s.historyIndex + 1) [] }
  else s

/-- Source: `clearRoute`, restricted to its history effects:
`setWaypoints([])`, `setHistory([[]])`, `setHistoryIndex(0)`.  Its
animation-state effects are modelled separately. -/
def clearRoute (_s : HistState) : HistState :=
  { history := [[]], historyIndex := 0, waypoints := [] }

/-- The four history operations a host can issue. -/
inductive HistOp where
  | commit (l : List Coord)
  | undoOp
  | redoOp
  | clearOp
  deriving DecidableEq, Repr

/-- One step of the history state machine. -/
def stepHist (s : HistState) : HistOp → HistState
  | .commit l => commitWaypoints l s
  | .undoOp => undo s
  | .redoOp => redo s
  | .clearOp => clearRoute s

/-- Running a sequence of operations from the initial state. -/
def runHist (initialWaypoints : List Coord) (ops : List HistOp) : HistState :=
  ops.foldl stepHist (initHist initialWaypoints)

/-- The history invariant: the cursor is a valid index into the stack and
the current list is the snapshot at the cursor. -/
def HistInv (s : HistState) : Prop :=
  s.historyIndex < s.history.length ∧
    s.history.getD s.historyIndex [] = s.waypoints

/-! ## GeometryKernel

Source: `distanceToSegment`, `findClosestSegment`, and the identical
minimum-distance scan inside `dblClickHandler`.
-/

/-- The squared distance computed by the source function
`distanceToSegment` just before its final `Math.sqrt`: the projection
parameter is clamped to the segment, with `param = -1` (endpoint case)
when the segment is degenerate. -/
def distSqToSegment (point start finish : Coord) : ℚ :=
  let x := point.1
  let y := point.2
  let x1 := start.1
  let y1 := start.2
  let x2 := finish.1
  let y2 := finish.2
  let a := x - x1
  let b := y - y1
  let c := x2 - x1
  let d := y2 - y1
  let dot := a * c + b * d
  let lenSq := c * c + d * d
  let param : ℚ := if lenSq = 0 then -1 else dot / lenSq
  let xx := if param < 0 then x1 else if 1 < param then x2 else x1 + param * c
  let yy := if param < 0 then y1 else if 1 < param then y2 else y1 + param * d
  let dx := x - xx
  let dy := y - yy
  dx * dx + dy * dy

/-- Source: `distanceToSegment`, including the final `Math.sqrt`. -/
noncomputable def distanceToSegment (point start finish : Coord) : ℝ :=
  Real.sqrt ((distSqToSegment point start finish : ℚ) : ℝ)

/-- The squared distances from a point to each consecutive segment of a
path, in order: the values the scan loops of `findClosestSegment` and
`dblClickHandler` compare (before the square root, which preserves the
order of nonnegative values). -/
def segDistsSq (point : Coord) (wps : List Coord) : List ℚ :=
  (wps.zip wps.tail).map (fun q => distSqToSegment point q.1 q.2)

/-- The scan loop shared by `findClosestSegment` and `dblClickHandler`:
starting from incumbent distance `m` at insertion index `best`, walk the
remaining segment distances (the running loop counter is `i`; a strictly
smaller distance at loop index `i` makes `i + 1` the new best insertion
index).  The source initialises the incumbent to `Infinity`, so the
first segment always wins the first comparison; the model pre-loads it. -/
def scanMinSq : List ℚ → ℚ → ℕ → ℕ → ℚ × ℕ
  | [], m, _, best => (m, best)
  | d :: ds, m, i, best =>
      if d < m then scanMinSq ds d (i + 1) (i + 1) else scanMinSq ds m (i + 1) best

/-- The minimum-distance scan of `dblClickHandler` (no threshold): for a
path with fewer than 2 points there is no segment and the handler
returns without inserting; otherwise it returns the insertion index
`i + 1` of the closest segment.  This is the `findNearestSegment`
operation of the specification. -/
def findNearestSegment (point : Coord) (wps : List Coord) : Option ℕ :=
  match segDistsSq point wps with
  | [] => none
  | d :: ds => some (scanMinSq ds d 1 1).2

/-- Source: the threshold computation inside `findClosestSegment`:
`baseThreshold = 0.0005`, `minThreshold = 0.001`,
`zoomFactor = 2 ^ (13 - currentZoom)`,
`threshold = max(minThreshold, baseThreshold * zoomFactor)`. -/
def hitThreshold (currentZoom : ℤ) : ℚ :=
  let baseThreshold : ℚ := 0.0005
  let minThreshold : ℚ := 0.001
  let zoomFactor : ℚ := 2 ^ ((13 : ℤ) - currentZoom)
  max minThreshold (baseThreshold * zoomFactor)

/-- Source: `findClosestSegment`.  Scans the segments for the minimum
distance, then returns the insertion index only when that distance is
below the zoom-adaptive threshold.  The source compares the square root
of the running minimum with the positive threshold; the model compares
the squares, which is equivalent for nonnegative values. -/
def findClosestSegment (clickPoint : Coord) (wps : List Coord) (currentZoom : ℤ) : Option ℕ :=
  match segDistsSq clickPoint wps with
  | [] => none
  | d :: ds =>
      let r := scanMinSq ds d 1 1
      if r.1 < hitThreshold currentZoom ^ 2 then some r.2 else none

/-! ## ElevationPipeline

Source: `fetchElevation`, its inner `tryFetch`, and the smoothing code
(`getControlPoints` and the 512-sample loop) in the chart effect.
-/

/-- Source: `coords.filter((unused, idx) => idx % sampleStep === 0)` -
an index-aware filter, with the running index made explicit. -/
def filterIdxFrom {α : Type} (p : ℕ → Bool) : ℕ → List α → List α
  | _, [] => []
  | i, x :: xs => if p i then x :: filterIdxFrom p (i + 1) xs else filterIdxFrom p (i + 1) xs

/-- The down-sampling step of `fetchElevation`:
`sampleStep = max(1, floor(coords.length / 512))`, keeping the
coordinates whose index is divisible by the step. -/
def sampleRoute (coords : List Coord) : List Coord :=
  let maxSamples : ℕ := 512
  let sampleStep := max 1 (coords.length / maxSamples)
  filterIdxFrom (fun idx => idx % sampleStep == 0) 0 coords

/-- The chunking loop of `fetchElevation`: slices of 100 coordinates. -/
def chunksOf100 {α : Type} (l : List α) : List (List α) :=
  if h : l.isEmpty then [] else l.take 100 :: chunksOf100 (l.drop 100)
termination_by l.length
decreasing_by
  have : 0 < l.length := by
    cases l with
    | nil => simp at h
    | cons x xs => simp
  simp [List.length_drop]
  omega

/-- The two provider selectors accepted by the /api/elevation route. -/
inductive Api where
  | opentopodata
  | openelevation
  deriving DecidableEq, Repr

/-- The body of one provider response, as `fetchElevation` inspects it:
`none` models a JSON body without a `results` array, `some entries`
models `results`, each entry carrying an optional `elevation` field
(`none` models a missing or null elevation). -/
abbrev ElevResponse : Type := Option (List (Option ℚ))

/-- The environment of remote calls: for a provider, a chunk of
coordinates and an attempt number, either a parsed response body or
`none` for a network/HTTP failure (the `throw` path of one attempt). -/
abbrev ElevOracle : Type := Api → List Coord → ℕ → Option ElevResponse

/-- Source: the inner `tryFetch` with its default `retries = 2`: up to
three attempts, returning the first response that does not throw; all
three failing propagates the failure. -/
def tryFetch (oracle : ElevOracle) (api : Api) (chunk : List Coord) : Option ElevResponse :=
  oracle api chunk 0 <|> oracle api chunk 1 <|> oracle api chunk 2

/-- One iteration of the per-chunk loop in `fetchElevation`: a chunk
whose attempts all fail, or whose first successful response has no
`results` array, aborts the provider run; otherwise the entry elevations
are collected with `r.elevation ?? 0`. -/
def processChunk (oracle : ElevOracle) (api : Api) (chunk : List Coord) :
    Except Unit (List ℚ) :=
  match tryFetch oracle api chunk with
  | none => .error ()
  | some none => .error ()
  | some (some results) => .ok (results.map (fun r => r.getD 0))

/-- The sequential chunk loop of `fetchElevation` for one provider:
chunks are awaited in order and the first failure aborts the run. -/
def runProvider (oracle : ElevOracle) (api : Api) : List (List Coord) → Except Unit (List ℚ)
  | [] => .ok []
  | c :: rest =>
      match processChunk oracle api c with
      | .error e => .error e
      | .ok evs =>
          match runProvider oracle api rest with
          | .error e => .error e
          | .ok more => .ok (evs ++ more)

/-- The elevation-related component state set by `fetchElevation`.
`elevMin`/`elevMax` are `none` before any profile is stored (and would
be the empty `Math.min()`/`Math.max()` infinities on an empty profile). -/
structure ElevState where
  elevationProfile : Option (List ℚ)
  elevMin : Option ℚ
  elevMax : Option ℚ
  elevationError : Bool
  showElevation : Bool
  elevationLoading : Bool
  deriving DecidableEq, Repr

/-- Source: `fetchElevation`.  Returns early for fewer than 2
coordinates; otherwise down-samples, chunks, clears the error flag,
tries the openelevation provider first over all chunks, falls back to
opentopodata on any failure, and only when both provider runs fail sets
the error flag and hides the profile.  The `finally` clause clears the
loading flag. -/
def fetchElevation (oracle : ElevOracle) (coords : List Coord) (st : ElevState) : ElevState :=
  if coords.length < 2 then st
  else
    let sampled := sampleRoute coords
    let chunks := chunksOf100 sampled
    let st1 := { st with elevationLoading := true, elevationError := false }
    let st2 :=
      match runProvider oracle .openelevation chunks with
      | .ok elevations =>
          { st1 with elevationProfile := some elevations
                     elevMin := elevations.min?
                     elevMax := elevations.max? }
      | .error _ =>
          match runProvider oracle .opentopodata chunks with
          | .ok elevations =>
              { st1 with elevationProfile := some elevations
                         elevMin := elevations.min?
                         elevMax := elevations.max? }
          | .error _ => { st1 with elevationError := true, showElevation := false }
    { st2 with elevationLoading := false }

/-- The elevation state before any fetch: the `useState` initialisers. -/
def initElevState : ElevState :=
  { elevationProfile := none, elevMin := none, elevMax := none
    elevationError := false, showElevation := false, elevationLoading := false }

/-- Source: `getControlPoints` in the chart effect - Catmull-Rom control
points with tension 0.33, neighbours clamped at the array boundaries
(`vals[Math.max(0, i - 1)]` is the truncated subtraction `i - 1` on ℕ). -/
def getControlPoints (vals : List ℚ) : List (ℚ × ℚ) :=
  (List.range (vals.length - 1)).map (fun i =>
    let p0 := vals.getD (i - 1) 0
    let p1 := vals.getD i 0
    let p2 := vals.getD (i + 1) 0
    let p3 := vals.getD (min (vals.length - 1) (i + 2)) 0
    let tension : ℚ := 0.33
    (p1 + (p2 - p0) * tension / 2, p2 - (p3 - p1) * tension / 2))

/-- Source: the 512-sample smoothing loop - for each uniform parameter
value, the cubic Bezier built from the bracketing raw samples and their
control points is evaluated.  Written for profiles with at least 2
samples (as in the source, where the profile comes from at least 2
route coordinates). -/
def smoothSample (elevationProfile : List ℚ) (s : ℕ) : ℚ :=
  -- the source hoists the control-point list out of the loop; the value
  -- per iteration is the same
  let cps := getControlPoints elevationProfile
  let sampleCount : ℕ := 512
  let tGlobal : ℚ := (s : ℚ) / ((sampleCount : ℚ) - 1)
  let segFloat : ℚ := tGlobal * ((elevationProfile.length : ℚ) - 1)
  let i : ℕ := min (elevationProfile.length - 2) (⌊segFloat⌋.toNat)
  let localT : ℚ := segFloat - (i : ℚ)
  let p1 := elevationProfile.getD i 0
  let p2 := elevationProfile.getD (i + 1) 0
  let cp := cps.getD i (0, 0)
  let oneMinusT : ℚ := 1 - localT
  oneMinusT ^ 3 * p1 + 3 * oneMinusT ^ 2 * localT * cp.1 +
    3 * oneMinusT * localT ^ 2 * cp.2 + localT ^ 3 * p2

/-- The full smoothed curve: `sampleCount = 512` samples pushed in
order, one per loop iteration. -/
def smoothedCurve (elevationProfile : List ℚ) : List ℚ :=
  (List.range 512).map (smoothSample elevationProfile)

/-! ## PlaybackAnimator

Source: `interpolate`, `animateRoute`, `togglePlay`.  The heading
computation (`bearing`, trigonometric) only rotates the marker icon and
is outside the model.
-/

/-- The animation-related component state: the `isPlaying`/`progress`
states, the start-timestamp ref, whether a next animation frame is
scheduled, and the player-marker position (`none` when removed). -/
structure AnimState where
  isPlaying : Bool
  progress : ℚ
  startTime : Option ℚ
  frameScheduled : Bool
  markerPos : Option Coord
  deriving DecidableEq, Repr

/-- The idle animation state: not playing, progress 0, no start
timestamp, no pending frame, no player marker. -/
def idleAnimState : AnimState :=
  { isPlaying := false, progress := 0, startTime := none
    frameScheduled := false, markerPos := none }

/-- Source: `interpolate` - linear interpolation between two points. -/
def interpolate (a b : Coord) (t : ℚ) : Coord :=
  (a.1 + (b.1 - a.1) * t, a.2 + (b.2 - a.2) * t)

/-- The position `animateRoute` computes from a progress value:
`floatIndex = progress * (len - 1)`, linear interpolation between the
bracketing points, the final point once the integer index reaches the
last position. -/
def posAt (coords : List Coord) (newProgress : ℚ) : Coord :=
  let floatIndex : ℚ := newProgress * ((coords.length : ℚ) - 1)
  let idx : ℕ := ⌊floatIndex⌋.toNat
  let t : ℚ := floatIndex - (idx : ℚ)
  if idx < coords.length - 1 then
    interpolate (coords.getD idx (0, 0)) (coords.getD (idx + 1) (0, 0)) t
  else coords.getD (coords.length - 1) (0, 0)

/-- The observable outcome of one `animateRoute` frame: the updated
state, the computed progress value passed to `setProgress`, and the
position passed to `setLatLng` (when the route has at least 2 points). -/
structure AnimResult where
  state : AnimState
  newProgress : ℚ
  markerTarget : Option Coord
  deriving DecidableEq, Repr

/-- Source: `animateRoute`.  Records the start timestamp on the first
frame, computes `elapsed` and `progress = min(elapsed / (duration*1000), 1)`,
returns early for routes shorter than 2 points, interpolates the marker
position, and either schedules the next frame (progress < 1) or
completes: playing stops, progress resets to 0, the start timestamp is
cleared and the player marker is removed. -/
def animateRoute (duration : ℚ) (coords : List Coord) (s : AnimState) (timestamp : ℚ) :
    AnimResult :=
  let startT := s.startTime.getD timestamp
  let elapsed := timestamp - startT
  let newProgress := min (elapsed / (duration * 1000)) 1
  if coords.length < 2 then
    { state := { s with progress := newProgress, startTime := some startT
                        frameScheduled := false }
      newProgress := newProgress
      markerTarget := none }
  else
    let pos := posAt coords newProgress
    if newProgress < 1 then
      { state := { s with progress := newProgress, startTime := some startT
                          markerPos := some pos, frameScheduled := true }
        newProgress := newProgress
        markerTarget := some pos }
    else
      { state := { s with progress := 0, startTime := none, isPlaying := false
                          markerPos := none, frameScheduled := false }
        newProgress := newProgress
        markerTarget := some pos }

/-- Source: `togglePlay`.  When playing: cancel the pending frame, reset
progress, clear the start timestamp, remove the marker.  When idle: only
if the stored route is nonempty (`routeCoordinatesRef.current.length > 0`),
create the player marker (at `[0, 0]`), mark playing, clear the start
timestamp and schedule the first frame; otherwise do nothing. -/
def togglePlay (routeCoordinates : List Coord) (s : AnimState) : AnimState :=
  if s.isPlaying then
    { s with isPlaying := false, progress := 0, startTime := none
             markerPos := none, frameScheduled := false }
  else if 0 < routeCoordinates.length then
    { s with isPlaying := true, startTime := none
             markerPos := some (0, 0), frameScheduled := true }
  else s

/-! ## Helper lemmas -/

theorem histInv_init (w0 : List Coord) : HistInv (initHist w0) := by
  constructor <;> simp [initHist]

theorem histInv_commit (s : HistState) (h : HistInv s) (l : List Coord) :
    HistInv (commitWaypoints l s) := by
  rcases h with ⟨hlt, hcur⟩
  unfold commitWaypoints
  by_cases hl : l = s.waypoints
  · simp only [if_pos hl]; exact ⟨hlt, hcur⟩
  · simp only [if_neg hl]
    have htake : (s.history.take (s.historyIndex + 1)).length = s.historyIndex + 1 := by
      simp [List.length_take]; omega
    constructor
    · simp [htake]
    · simp only [List.getD]
      rw [List.get?_append_right (by omega)]
      simp [htake]

theorem histInv_undo (s : HistState) (h : HistInv s) : HistInv (undo s) := by
  rcases h with ⟨hlt, hcur⟩
  unfold undo
  by_cases hc : canUndo s = true
  · simp only [if_pos hc]
    exact ⟨Nat.lt_of_le_of_lt (Nat.sub_le _ _) hlt, rfl⟩
  · simp only [Bool.not_eq_true] at hc
    simp only [hc, Bool.false_eq_true, if_false]
    exact ⟨hlt, hcur⟩

theorem histInv_redo (s : HistState) (h : HistInv s) : HistInv (redo s) := by
  rcases h with ⟨hlt, hcur⟩
  unfold redo
  by_cases hc : canRedo s = true
  · simp only [if_pos hc]
    have hlt1 : s.historyIndex < s.history.length - 1 := by
      simpa [canRedo] using hc
    refine ⟨?_, rfl⟩
    show s.historyIndex + 1 < s.history.length
    omega
  · simp only [Bool.not_eq_true] at hc
    simp only [hc, Bool.false_eq_true, if_false]
    exact ⟨hlt, hcur⟩

theorem histInv_clear (s : HistState) : HistInv (clearRoute s) := by
  constructor <;> simp [clearRoute]

theorem histInv_step (s : HistState) (h : HistInv s) (op : HistOp) :
    HistInv (stepHist s op) := by
  cases op with
  | commit l => exact histInv_commit s h l
  | undoOp => exact histInv_undo s h
  | redoOp => exact histInv_redo s h
  | clearOp => exact histInv_clear s

theorem histInv_foldl (ops : List HistOp) (s : HistState) (h : HistInv s) :
    HistInv (ops.foldl stepHist s) := by
  induction ops generalizing s with
  | nil => exact h
  | cons op rest ih => exact ih _ (histInv_step s h op)

theorem histInv_run (w0 : List Coord) (ops : List HistOp) :
    HistInv (runHist w0 ops) :=
  histInv_foldl ops _ (histInv_init w0)

theorem filterIdxFrom_length {α : Type} (p : ℕ → Bool) :
    ∀ (l : List α) (i : ℕ),
      (filterIdxFrom p i l).length =
        ((List.range l.length).filter (fun j => p (i + j))).length := by
  intro l
  induction l with
  | nil => intro i; simp [filterIdxFrom]
  | cons x xs ih =>
    intro i
    have hmap : ((List.range xs.length).map Nat.succ).filter (fun j => p (i + j)) =
        ((List.range xs.length).filter (fun j => p (i + 1 + j))).map Nat.succ := by
      rw [List.filter_map]
      congr 1
      apply List.filter_congr
      intro j _
      simp only [Function.comp_apply]
      exact congrArg p (by omega)
    rw [List.length_cons, List.range_succ_eq_map, List.filter_cons]
    by_cases hp : p i
    · have hp0 : p (i + 0) = true := by simpa using hp
      rw [filterIdxFrom, if_pos hp, hp0]
      simp only [if_true, List.length_cons, hmap, List.length_map]
      rw [ih (i + 1)]
    · have hp0 : p (i + 0) = false := by simpa using hp
      rw [filterIdxFrom, if_neg hp, hp0]
      simp only [Bool.false_eq_true, if_false, hmap, List.length_map]
      rw [ih (i + 1)]

theorem filterIdxFrom_zero_length {α : Type} (p : ℕ → Bool) (l : List α) :
    (filterIdxFrom p 0 l).length = ((List.range l.length).filter p).length := by
  rw [filterIdxFrom_length]
  congr 1
  apply List.filter_congr
  intro j _
  exact congrArg p (Nat.zero_add j)

theorem length_filter_mod (s : ℕ) (hs : 0 < s) :
    ∀ n : ℕ, ((List.range n).filter (fun j => j % s == 0)).length = (n + s - 1) / s := by
  intro n
  induction n with
  | zero =>
    simp [Nat.div_eq_of_lt (by omega : s - 1 < s)]
  | succ n ih =>
    rw [List.range_succ, List.filter_append, List.length_append, ih]
    simp only [List.filter_cons, List.filter_nil]
    have hns : n + 1 + s - 1 = (n + s - 1) + 1 := by omega
    rw [hns, Nat.succ_div]
    have heq : (n + s - 1) + 1 = n + s := by omega
    have hdvd : s ∣ (n + s - 1) + 1 ↔ s ∣ n := by
      rw [heq]
      exact Nat.dvd_add_self_right
    by_cases hd : s ∣ n
    · have hm : (n % s == 0) = true := by
        simp [Nat.eq_zero_of_dvd_of_lt, Nat.mod_eq_zero_of_dvd hd]
      rw [if_pos (hdvd.mpr hd)]
      simp [hm]
    · have hm : (n % s == 0) = false := by
        simp only [beq_eq_false_iff_ne, ne_eq]
        intro hmod
        exact hd (Nat.dvd_of_mod_eq_zero hmod)
      rw [if_neg (fun h => hd (hdvd.mp h))]
      simp [hm]

theorem scanMinSq_spec (ds : List ℚ) : ∀ (m : ℚ) (i best : ℕ),
    ((scanMinSq ds m i best).2 = best ∧ (scanMinSq ds m i best).1 = m ∧ ∀ d ∈ ds, m ≤ d) ∨
    (∃ j, j < ds.length ∧ (scanMinSq ds m i best).2 = i + 1 + j ∧
      (scanMinSq ds m i best).1 = ds.getD j 0 ∧ ds.getD j 0 < m ∧
      ∀ j2, j2 < ds.length → ds.getD j 0 ≤ ds.getD j2 0) := by
  induction ds with
  | nil =>
    intro m i best
    left
    exact ⟨rfl, rfl, by simp⟩
  | cons d ds ih =>
    intro m i best
    by_cases hd : d < m
    · have hrw : scanMinSq (d :: ds) m i best = scanMinSq ds d (i + 1) (i + 1) := by
        rw [scanMinSq, if_pos hd]
      rw [hrw]
      rcases ih d (i + 1) (i + 1) with ⟨hb, hv, hall⟩ | ⟨j, hj, hb, hv, hlt, hmin⟩
      · right
        refine ⟨0, by simp, ?_, ?_, ?_, ?_⟩
        · rw [hb]
        · rw [hv]; simp
        · simpa using hd
        · intro j2 hj2
          cases j2 with
          | zero => simp
          | succ j3 =>
            simp only [List.getD_cons_zero, List.getD_cons_succ]
            have hk : j3 < ds.length := by simpa using hj2
            rw [List.getD_eq_getElem ds 0 hk]
            exact hall _ (List.getElem_mem hk)
      · right
        refine ⟨j + 1, by simpa using hj, ?_, ?_, ?_, ?_⟩
        · rw [hb]; omega
        · rw [hv]; simp
        · simp only [List.getD_cons_succ]
          exact lt_trans hlt hd
        · intro j2 hj2
          cases j2 with
          | zero =>
            simp only [List.getD_cons_succ, List.getD_cons_zero]
            exact le_of_lt hlt
          | succ j3 =>
            simp only [List.getD_cons_succ]
            exact hmin j3 (by simpa using hj2)
    · have hrw : scanMinSq (d :: ds) m i best = scanMinSq ds m (i + 1) best := by
        rw [scanMinSq, if_neg hd]
      rw [hrw]
      push_neg at hd
      rcases ih m (i + 1) best with ⟨hb, hv, hall⟩ | ⟨j, hj, hb, hv, hlt, hmin⟩
      · left
        refine ⟨hb, hv, ?_⟩
        intro d2 hd2
        rcases List.mem_cons.mp hd2 with h | h
        · rw [h]; exact hd
        · exact hall d2 h
      · right
        refine ⟨j + 1, by simpa using hj, ?_, ?_, ?_, ?_⟩
        · rw [hb]; omega
        · rw [hv]; simp
        · simp only [List.getD_cons_succ]
          exact hlt
        · intro j2 hj2
          cases j2 with
          | zero =>
            simp only [List.getD_cons_succ, List.getD_cons_zero]
            exact le_trans (le_of_lt hlt) hd
          | succ j3 =>
            simp only [List.getD_cons_succ]
            exact hmin j3 (by simpa using hj2)

theorem segDistsSq_length (p : Coord) (wps : List Coord) :
    (segDistsSq p wps).length = wps.length - 1 := by
  simp only [segDistsSq, List.length_map, List.length_zip, List.length_tail]
  omega

theorem segDistsSq_getD (p : Coord) (wps : List Coord) (j : ℕ) (hj : j + 1 < wps.length) :
    (segDistsSq p wps).getD j 0 =
      distSqToSegment p (wps.getD j (0, 0)) (wps.getD (j + 1) (0, 0)) := by
  have hjlt : j < (segDistsSq p wps).length := by
    rw [segDistsSq_length]; omega
  have hjz : j < (wps.zip wps.tail).length := by
    simpa [segDistsSq] using hjlt
  rw [List.getD_eq_getElem _ 0 hjlt]
  rw [List.getD_eq_getElem wps (0, 0) (by omega : j < wps.length)]
  rw [List.getD_eq_getElem wps (0, 0) hj]
  simp only [segDistsSq, List.getElem_map, List.getElem_zip, List.getElem_tail]

theorem findNearestSegment_argmin (p : Coord) (wps : List Coord) (h2 : 2 ≤ wps.length) :
    ∃ k, findNearestSegment p wps = some (k + 1) ∧ k < (segDistsSq p wps).length ∧
      ∀ m, m < (segDistsSq p wps).length →
        (segDistsSq p wps).getD k 0 ≤ (segDistsSq p wps).getD m 0 := by
  obtain ⟨d, ds, hds⟩ : ∃ d ds, segDistsSq p wps = d :: ds := by
    cases hsd : segDistsSq p wps with
    | nil =>
      have := segDistsSq_length p wps
      rw [hsd] at this
      simp at this
      omega
    | cons d ds => exact ⟨d, ds, rfl⟩
  have hfind : findNearestSegment p wps = some (scanMinSq ds d 1 1).2 := by
    rw [findNearestSegment, hds]
  rcases scanMinSq_spec ds d 1 1 with ⟨hb, _, hall⟩ | ⟨j, hj, hb, _, hlt, hmin⟩
  · refine ⟨0, by rw [hfind, hb], by rw [hds]; simp, ?_⟩
    intro m hm
    rw [hds] at hm ⊢
    cases m with
    | zero => simp
    | succ j3 =>
      simp only [List.getD_cons_zero, List.getD_cons_succ]
      have hk : j3 < ds.length := by simpa using hm
      rw [List.getD_eq_getElem ds 0 hk]
      exact hall _ (List.getElem_mem hk)
  · refine ⟨j + 1, by rw [hfind, hb]; exact congrArg some (by omega),
      by rw [hds]; simpa using hj, ?_⟩
    intro m hm
    rw [hds] at hm ⊢
    cases m with
    | zero =>
      simp only [List.getD_cons_succ, List.getD_cons_zero]
      exact le_of_lt hlt
    | succ j3 =>
      simp only [List.getD_cons_succ]
      exact hmin j3 (by simpa using hm)

theorem sampleRoute_length (coords : List Coord) :
    (sampleRoute coords).length =
      (coords.length + max 1 (coords.length / 512) - 1) / max 1 (coords.length / 512) := by
  unfold sampleRoute
  rw [filterIdxFrom_zero_length]
  exact length_filter_mod (max 1 (coords.length / 512)) (by omega) coords.length

/-! ## Claim theorems -/

/-- C1 counterexample: a 513-point path has stride
`max(1, floor(513 / 512)) = 1`, so the down-sampling keeps all 513
points - more than 512. -/
theorem sampleRoute_counterexample :
    (sampleRoute (List.replicate 513 ((0 : ℚ), (0 : ℚ)))).length = 513 ∧
    ¬(sampleRoute (List.replicate 513 ((0 : ℚ), (0 : ℚ)))).length ≤ 512 := by
  have h : (sampleRoute (List.replicate 513 ((0 : ℚ), (0 : ℚ)))).length = 513 := by
    rw [sampleRoute_length]
    simp only [List.length_replicate]
    decide
  exact ⟨h, by omega⟩

/-- C1 amended: the down-sampling step (stride
`max(1, floor(length / 512))`, keeping the indices divisible by the
stride) produces at most 1023 points, not at most 512; paths of up to
1023 points are kept whole, and the bound 1023 is attained at length
1023. -/
theorem sampleRoute_length_le (coords : List Coord) :
    (sampleRoute coords).length ≤ 1023 := by
  rw [sampleRoute_length]
  by_cases hsmall : coords.length ≤ 1023
  · have hstep : max 1 (coords.length / 512) = 1 := by omega
    rw [hstep]
    omega
  · push_neg at hsmall
    obtain ⟨k, hk⟩ : ∃ k, coords.length / 512 = k := ⟨_, rfl⟩
    have hk2 : 2 ≤ k := by omega
    have hbound : coords.length + k - 1 ≤ 510 + 513 * k := by omega
    have hstep : max 1 (coords.length / 512) = k := by omega
    rw [hstep]
    have h3 : 510 / k ≤ 255 := by
      have := @Nat.div_le_div_left 510 k 2 hk2 (by norm_num)
      simpa using this
    have h0k : 0 < k := by omega
    have h2 : (510 + 513 * k) / k = 510 / k + 513 := Nat.add_mul_div_right 510 513 h0k
    calc (coords.length + k - 1) / k
        ≤ (510 + 513 * k) / k := Nat.div_le_div_right hbound
      _ = 510 / k + 513 := h2
      _ ≤ 255 + 513 := Nat.add_le_add_right h3 513
      _ ≤ 1023 := by norm_num

/-- C8: the nearest-segment scan returns none for paths with fewer than
2 points; otherwise it returns the insertion index `k + 1` of a
consecutive pair whose point-to-segment distance (the square root the
source computes) is minimal among all pairs; on the concrete path
`[[0,0],[0,10],[10,10]]` with click point `[1,5]` it returns index 1. -/
theorem findNearestSegment_spec :
    (∀ p wps, wps.length < 2 → findNearestSegment p wps = none) ∧
    (∀ p wps, 2 ≤ wps.length →
      ∃ k, findNearestSegment p wps = some (k + 1) ∧ k + 1 < wps.length ∧
        ∀ m, m + 1 < wps.length →
          distanceToSegment p (wps.getD k (0, 0)) (wps.getD (k + 1) (0, 0)) ≤
            distanceToSegment p (wps.getD m (0, 0)) (wps.getD (m + 1) (0, 0))) ∧
    findNearestSegment ((1 : ℚ), (5 : ℚ))
      [((0 : ℚ), (0 : ℚ)), ((0 : ℚ), (10 : ℚ)), ((10 : ℚ), (10 : ℚ))] = some 1 := by
  have h1 : distSqToSegment (1, 5) (0, 0) (0, 10) = 1 := by norm_num [distSqToSegment]
  have h2 : distSqToSegment (1, 5) (0, 10) (10, 10) = 25 := by norm_num [distSqToSegment]
  refine ⟨?_, ?_, ?_⟩
  case refine_3 =>
    rw [findNearestSegment]
    norm_num [segDistsSq, h1, h2, scanMinSq, -Prod.mk_zero_zero]
  · intro p wps hlen
    have h0 : (segDistsSq p wps).length = 0 := by
      rw [segDistsSq_length]; omega
    have hnil : segDistsSq p wps = [] := List.eq_nil_of_length_eq_zero h0
    rw [findNearestSegment, hnil]
  · intro p wps h2
    obtain ⟨k, hfind, hk, hmin⟩ := findNearestSegment_argmin p wps h2
    rw [segDistsSq_length] at hk
    refine ⟨k, hfind, by omega, ?_⟩
    intro m hm
    have hq : (segDistsSq p wps).getD k 0 ≤ (segDistsSq p wps).getD m 0 := by
      apply hmin
      rw [segDistsSq_length]
      omega
    rw [segDistsSq_getD p wps k (by omega), segDistsSq_getD p wps m hm] at hq
    unfold distanceToSegment
    exact Real.sqrt_le_sqrt (by exact_mod_cast hq)

/-- C8 witness: the none case on a 1-point path and the minimality
statement at the concrete 3-point path. -/
theorem findNearestSegment_spec_witness :
    findNearestSegment ((0 : ℚ), (0 : ℚ)) [((7 : ℚ), (7 : ℚ))] = none ∧
    (∃ k, findNearestSegment ((1 : ℚ), (5 : ℚ))
        [((0 : ℚ), (0 : ℚ)), ((0 : ℚ), (10 : ℚ)), ((10 : ℚ), (10 : ℚ))] = some (k + 1) ∧
      k + 1 < ([((0 : ℚ), (0 : ℚ)), ((0 : ℚ), (10 : ℚ)), ((10 : ℚ), (10 : ℚ))] :
          List Coord).length ∧
      ∀ m, m + 1 < ([((0 : ℚ), (0 : ℚ)), ((0 : ℚ), (10 : ℚ)), ((10 : ℚ), (10 : ℚ))] :
          List Coord).length →
        distanceToSegment ((1 : ℚ), (5 : ℚ))
            (([((0 : ℚ), (0 : ℚ)), ((0 : ℚ), (10 : ℚ)), ((10 : ℚ), (10 : ℚ))] :
              List Coord).getD k (0, 0))
            (([((0 : ℚ), (0 : ℚ)), ((0 : ℚ), (10 : ℚ)), ((10 : ℚ), (10 : ℚ))] :
              List Coord).getD (k + 1) (0, 0)) ≤
          distanceToSegment ((1 : ℚ), (5 : ℚ))
            (([((0 : ℚ), (0 : ℚ)), ((0 : ℚ), (10 : ℚ)), ((10 : ℚ), (10 : ℚ))] :
              List Coord).getD m (0, 0))
            (([((0 : ℚ), (0 : ℚ)), ((0 : ℚ), (10 : ℚ)), ((10 : ℚ), (10 : ℚ))] :
              List Coord).getD (m + 1) (0, 0))) :=
  ⟨findNearestSegment_spec.1 ((0 : ℚ), (0 : ℚ)) [((7 : ℚ), (7 : ℚ))] (by decide),
   findNearestSegment_spec.2.1 ((1 : ℚ), (5 : ℚ))
     [((0 : ℚ), (0 : ℚ)), ((0 : ℚ), (10 : ℚ)), ((10 : ℚ), (10 : ℚ))] (by decide)⟩

theorem sampleRoute_ne_nil (coords : List Coord) (h : coords ≠ []) :
    sampleRoute coords ≠ [] := by
  cases coords with
  | nil => exact absurd rfl h
  | cons x xs =>
    unfold sampleRoute
    rw [filterIdxFrom]
    simp

theorem chunksOf100_ne_nil {α : Type} (l : List α) (h : l ≠ []) : chunksOf100 l ≠ [] := by
  rw [chunksOf100]
  have hne : l.isEmpty = false := by simp [h]
  rw [dif_neg (by simp [hne])]
  simp

theorem runProvider_error_of_attempts_fail (oracle : ElevOracle) (api : Api)
    (hfail : ∀ chunk n, oracle api chunk n = none)
    (chunks : List (List Coord)) (hne : chunks ≠ []) :
    runProvider oracle api chunks = .error () := by
  cases chunks with
  | nil => exact absurd rfl hne
  | cons c rest =>
    have hchunk : processChunk oracle api c = .error () := by
      rw [processChunk]
      simp [tryFetch, hfail]
    rw [runProvider, hchunk]

theorem runProvider_ok_of_results (oracle : ElevOracle) (api : Api)
    (ent : List Coord → List (Option ℚ))
    (hok : ∀ chunk, tryFetch oracle api chunk = some (some (ent chunk))) :
    ∀ chunks, runProvider oracle api chunks =
      .ok (chunks.flatMap (fun c => (ent c).map (fun r => r.getD 0))) := by
  intro chunks
  induction chunks with
  | nil => rw [runProvider]; simp
  | cons c rest ih =>
    rw [runProvider, processChunk, hok c, ih]
    simp

/-- C4: when every attempt against the primary provider (openelevation,
tried first in the source) fails and the secondary provider
(opentopodata) answers every chunk with a well-formed result list, the
pipeline stores the concatenation of the secondary results and leaves
the unavailable flag clear; and whenever the flag does get set on a run,
both provider runs failed. -/
theorem fetchElevation_fallback :
    (∀ (oracle : ElevOracle) (coords : List Coord) (st : ElevState)
        (ent : List Coord → List (Option ℚ)),
      2 ≤ coords.length →
      (∀ chunk n, oracle .openelevation chunk n = none) →
      (∀ chunk, tryFetch oracle .opentopodata chunk = some (some (ent chunk))) →
      (fetchElevation oracle coords st).elevationError = false ∧
      (fetchElevation oracle coords st).elevationProfile =
        some ((chunksOf100 (sampleRoute coords)).flatMap
          (fun c => (ent c).map (fun r => r.getD 0)))) ∧
    (∀ (oracle : ElevOracle) (coords : List Coord) (st : ElevState),
      2 ≤ coords.length →
      (fetchElevation oracle coords st).elevationError = true →
      runProvider oracle .openelevation (chunksOf100 (sampleRoute coords)) = .error () ∧
      runProvider oracle .opentopodata (chunksOf100 (sampleRoute coords)) = .error ()) := by
  constructor
  · intro oracle coords st ent h2 hp hs
    have hcne : coords ≠ [] := by
      intro hnil
      rw [hnil] at h2
      simp at h2
    have hchunks : chunksOf100 (sampleRoute coords) ≠ [] :=
      chunksOf100_ne_nil _ (sampleRoute_ne_nil coords hcne)
    have hperr := runProvider_error_of_attempts_fail oracle .openelevation hp _ hchunks
    have hsok := runProvider_ok_of_results oracle .opentopodata ent hs
      (chunksOf100 (sampleRoute coords))
    unfold fetchElevation
    rw [if_neg (by omega : ¬coords.length < 2)]
    simp [hperr, hsok]
  · intro oracle coords st h2 herr
    unfold fetchElevation at herr
    rw [if_neg (by omega : ¬coords.length < 2)] at herr
    rcases hrp : runProvider oracle .openelevation (chunksOf100 (sampleRoute coords))
      with e | evs
    · rcases hrs : runProvider oracle .opentopodata (chunksOf100 (sampleRoute coords))
        with e2 | evs2
      · cases e; cases e2
        exact ⟨rfl, rfl⟩
      · exfalso
        simp only [hrp, hrs] at herr
        simp at herr
    · exfalso
      simp only [hrp] at herr
      simp at herr

/-- C4 witness: a concrete oracle whose primary attempts all fail and
whose secondary answers every chunk. -/
theorem fetchElevation_fallback_witness :
    (fetchElevation
        (fun api _chunk _n =>
          match api with
          | .openelevation => none
          | .opentopodata => some (some [some (5 : ℚ), none]))
        [((0 : ℚ), (0 : ℚ)), ((0 : ℚ), (1 : ℚ))] initElevState).elevationError = false ∧
    (fetchElevation
        (fun api _chunk _n =>
          match api with
          | .openelevation => none
          | .opentopodata => some (some [some (5 : ℚ), none]))
        [((0 : ℚ), (0 : ℚ)), ((0 : ℚ), (1 : ℚ))] initElevState).elevationProfile =
      some ((chunksOf100 (sampleRoute [((0 : ℚ), (0 : ℚ)), ((0 : ℚ), (1 : ℚ))])).flatMap
        (fun c => (((fun _ : List Coord => [some (5 : ℚ), none]) c).map
          (fun r => r.getD 0)))) :=
  fetchElevation_fallback.1
    (fun api _chunk _n =>
      match api with
      | .openelevation => none
      | .opentopodata => some (some [some (5 : ℚ), none]))
    [((0 : ℚ), (0 : ℚ)), ((0 : ℚ), (1 : ℚ))] initElevState
    (fun _ => [some (5 : ℚ), none])
    (by decide) (fun _ _ => rfl) (fun _ => rfl)

/-- C10: a response that does contain a results array is processed
successfully whatever the individual entries hold - a missing or null
elevation contributes 0 via `?? 0` - and a chunk fails only when all
attempts throw or the first successful response has no results array. -/
theorem elevation_missing_field_spec :
    (∀ (oracle : ElevOracle) (api : Api) (chunk : List Coord)
        (entries : List (Option ℚ)),
      tryFetch oracle api chunk = some (some entries) →
      processChunk oracle api chunk = .ok (entries.map (fun r => r.getD 0))) ∧
    (∀ (oracle : ElevOracle) (api : Api) (chunk : List Coord),
      processChunk oracle api chunk = .error () ↔
        tryFetch oracle api chunk = none ∨ tryFetch oracle api chunk = some none) := by
  constructor
  · intro oracle api chunk entries hres
    rw [processChunk, hres]
  · intro oracle api chunk
    rw [processChunk]
    rcases htf : tryFetch oracle api chunk with _ | r
    · simp
    · rcases r with _ | entries
      · simp
      · simp

/-- C10 witness: an entry list with one null elevation is accepted and
mapped through `?? 0`. -/
theorem elevation_missing_field_witness :
    processChunk (fun _ _ _ => some (some [some (3 : ℚ), none])) .openelevation [] =
      .ok ([some (3 : ℚ), none].map (fun r => r.getD 0)) :=
  elevation_missing_field_spec.1 (fun _ _ _ => some (some [some (3 : ℚ), none]))
    .openelevation [] [some (3 : ℚ), none] rfl

theorem smoothSample_zero (vals : List ℚ) : smoothSample vals 0 = vals.getD 0 0 := by
  unfold smoothSample
  norm_num

theorem smoothSample_last (vals : List ℚ) (h : 2 ≤ vals.length) :
    smoothSample vals 511 = vals.getD (vals.length - 1) 0 := by
  unfold smoothSample
  dsimp only
  have hseg : ((511 : ℕ) : ℚ) / (((512 : ℕ) : ℚ) - 1) * ((vals.length : ℚ) - 1) =
      ((vals.length - 1 : ℕ) : ℚ) := by
    rw [(by norm_num : ((511 : ℕ) : ℚ) / (((512 : ℕ) : ℚ) - 1) = 1), one_mul]
    push_cast [Nat.cast_sub (by omega : 1 ≤ vals.length)]
    ring
  rw [hseg]
  have hfloor : (⌊((vals.length - 1 : ℕ) : ℚ)⌋).toNat = vals.length - 1 := by
    rw [Int.floor_natCast]
    exact Int.toNat_natCast _
  rw [hfloor]
  have hmin : min (vals.length - 2) (vals.length - 1) = vals.length - 2 := by omega
  rw [hmin]
  have hT : ((vals.length - 1 : ℕ) : ℚ) - ((vals.length - 2 : ℕ) : ℚ) = 1 := by
    push_cast [Nat.cast_sub (by omega : 1 ≤ vals.length),
      Nat.cast_sub (by omega : 2 ≤ vals.length)]
    ring
  rw [hT]
  have hidx : vals.length - 2 + 1 = vals.length - 1 := by omega
  rw [hidx]
  ring

theorem smoothedCurve_getD (vals : List ℚ) (s : ℕ) (hs : s < 512) :
    (smoothedCurve vals).getD s 0 = smoothSample vals s := by
  have hlen : (smoothedCurve vals).length = 512 := by simp [smoothedCurve]
  rw [List.getD_eq_getElem _ 0 (by rw [hlen]; omega)]
  simp [smoothedCurve]

/-- C7: for a raw profile with at least 2 samples, the 512-sample
smoothed curve has length 512 and its first and last samples equal the
first and last raw samples (the Catmull-Rom boundary clamping preserves
the endpoints). -/
theorem smoothedCurve_endpoints (vals : List ℚ) (h : 2 ≤ vals.length) :
    (smoothedCurve vals).length = 512 ∧
    (smoothedCurve vals).getD 0 0 = vals.getD 0 0 ∧
    (smoothedCurve vals).getD 511 0 = vals.getD (vals.length - 1) 0 := by
  refine ⟨by simp [smoothedCurve], ?_, ?_⟩
  · rw [smoothedCurve_getD vals 0 (by omega)]
    exact smoothSample_zero vals
  · rw [smoothedCurve_getD vals 511 (by omega)]
    exact smoothSample_last vals h

/-- C7 witness: the endpoint equalities at a concrete 2-sample
profile. -/
theorem smoothedCurve_endpoints_witness :
    (smoothedCurve [(0 : ℚ), (10 : ℚ)]).length = 512 ∧
    (smoothedCurve [(0 : ℚ), (10 : ℚ)]).getD 0 0 = ([(0 : ℚ), (10 : ℚ)]).getD 0 0 ∧
    (smoothedCurve [(0 : ℚ), (10 : ℚ)]).getD 511 0 =
      ([(0 : ℚ), (10 : ℚ)]).getD (([(0 : ℚ), (10 : ℚ)]).length - 1) 0 :=
  smoothedCurve_endpoints [(0 : ℚ), (10 : ℚ)] (by decide)

/-- C6: starting playback on a route with at least 2 points and
duration 5 seconds, frames at elapsed 0 s / 2.5 s / 5 s from the
first-frame timestamp compute progress 0, 1/2 and 1 (via
`min(elapsed / (duration * 1000), 1)`), each placing the marker at the
linear interpolation `posAt` of the fractional index
`progress * (len - 1)`; at progress 1 the animator stops rescheduling,
resets progress to 0, clears the start timestamp and stops playing. -/
theorem animator_progress_chain (coords : List Coord) (h : 2 ≤ coords.length) (t0 : ℚ) :
    togglePlay coords idleAnimState =
      { isPlaying := true, progress := 0, startTime := none
        frameScheduled := true, markerPos := some (0, 0) } ∧
    animateRoute 5 coords
        { isPlaying := true, progress := 0, startTime := none
          frameScheduled := true, markerPos := some (0, 0) } t0 =
      { state := { isPlaying := true, progress := 0, startTime := some t0
                   frameScheduled := true, markerPos := some (posAt coords 0) }
        newProgress := 0
        markerTarget := some (posAt coords 0) } ∧
    animateRoute 5 coords
        { isPlaying := true, progress := 0, startTime := some t0
          frameScheduled := true, markerPos := some (posAt coords 0) } (t0 + 2500) =
      { state := { isPlaying := true, progress := 1 / 2, startTime := some t0
                   frameScheduled := true, markerPos := some (posAt coords (1 / 2)) }
        newProgress := 1 / 2
        markerTarget := some (posAt coords (1 / 2)) } ∧
    animateRoute 5 coords
        { isPlaying := true, progress := 1 / 2, startTime := some t0
          frameScheduled := true, markerPos := some (posAt coords (1 / 2)) } (t0 + 5000) =
      { state := { isPlaying := false, progress := 0, startTime := none
                   frameScheduled := false, markerPos := none }
        newProgress := 1
        markerTarget := some (posAt coords 1) } := by
  have hne : ¬coords.length < 2 := by omega
  have hpos : 0 < coords.length := by omega
  refine ⟨?_, ?_, ?_, ?_⟩
  · unfold togglePlay idleAnimState
    norm_num
    exact List.ne_nil_of_length_pos hpos
  · unfold animateRoute
    rw [if_neg hne]
    norm_num
  · unfold animateRoute
    rw [if_neg hne]
    have he : t0 + 2500 - (Option.getD (some t0) (t0 + 2500)) = 2500 := by simp
    norm_num [he]
  · unfold animateRoute
    rw [if_neg hne]
    have he : t0 + 5000 - (Option.getD (some t0) (t0 + 5000)) = 5000 := by simp
    norm_num [he]

/-- C6 witness: the completion frame on a concrete 2-point route with
first-frame timestamp 100. -/
theorem animator_progress_chain_witness :
    animateRoute 5 [((0 : ℚ), (0 : ℚ)), ((1 : ℚ), (1 : ℚ))]
        { isPlaying := true, progress := 1 / 2, startTime := some (100 : ℚ)
          frameScheduled := true
          markerPos := some (posAt [((0 : ℚ), (0 : ℚ)), ((1 : ℚ), (1 : ℚ))] (1 / 2)) }
        ((100 : ℚ) + 5000) =
      { state := { isPlaying := false, progress := 0, startTime := none
                   frameScheduled := false, markerPos := none }
        newProgress := 1
        markerTarget := some (posAt [((0 : ℚ), (0 : ℚ)), ((1 : ℚ), (1 : ℚ))] 1) } :=
  (animator_progress_chain [((0 : ℚ), (0 : ℚ)), ((1 : ℚ), (1 : ℚ))] (by decide) 100).2.2.2

/-- C2: after every sequence of history operations from the initial
state, the cursor is in `[0, length - 1]`, the current waypoint list is
`stack[cursor]`, `canUndo` and `canRedo` agree with the cursor position,
and on the reached state a non-trivial commit truncates after the cursor
and appends, undo decrements the cursor, redo increments it. -/
theorem waypointHistory_invariants (w0 : List Coord) (ops : List HistOp) :
    (runHist w0 ops).historyIndex < (runHist w0 ops).history.length ∧
    (runHist w0 ops).history.getD (runHist w0 ops).historyIndex [] = (runHist w0 ops).waypoints ∧
    (canUndo (runHist w0 ops) = decide (0 < (runHist w0 ops).historyIndex)) ∧
    (canRedo (runHist w0 ops) =
      decide ((runHist w0 ops).historyIndex < (runHist w0 ops).history.length - 1)) ∧
    (∀ l, l ≠ (runHist w0 ops).waypoints →
      stepHist (runHist w0 ops) (.commit l) =
        { history := (runHist w0 ops).history.take ((runHist w0 ops).historyIndex + 1) ++ [l]
          historyIndex := (runHist w0 ops).historyIndex + 1
          waypoints := l }) ∧
    (canUndo (runHist w0 ops) = true →
      (stepHist (runHist w0 ops) .undoOp).historyIndex = (runHist w0 ops).historyIndex - 1) ∧
    (canRedo (runHist w0 ops) = true →
      (stepHist (runHist w0 ops) .redoOp).historyIndex = (runHist w0 ops).historyIndex + 1) := by
  obtain ⟨hlt, hcur⟩ := histInv_run w0 ops
  refine ⟨hlt, hcur, rfl, rfl, ?_, ?_, ?_⟩
  · intro l hl
    simp [stepHist, commitWaypoints, hl]
  · intro hu
    simp [stepHist, undo, hu]
  · intro hr
    simp [stepHist, redo, hr]

/-- C2 witness: a concrete run establishing the invariant and the
cursor-decrement behaviour of undo. -/
theorem waypointHistory_invariants_witness :
    (runHist [] [HistOp.commit [((1 : ℚ), (2 : ℚ))]]).historyIndex <
      (runHist [] [HistOp.commit [((1 : ℚ), (2 : ℚ))]]).history.length ∧
    (stepHist (runHist [] [HistOp.commit [((1 : ℚ), (2 : ℚ))]]) .undoOp).historyIndex =
      (runHist [] [HistOp.commit [((1 : ℚ), (2 : ℚ))]]).historyIndex - 1 :=
  ⟨(waypointHistory_invariants [] [HistOp.commit [((1 : ℚ), (2 : ℚ))]]).1,
   (waypointHistory_invariants [] [HistOp.commit [((1 : ℚ), (2 : ℚ))]]).2.2.2.2.2.1 (by decide)⟩

/-- C5: committing the same list twice in a row changes nothing after
the first commit, and a commit of a list structurally equal to the
current list is a no-op. -/
theorem commit_idempotent (s : HistState) (a : List Coord) :
    commitWaypoints a (commitWaypoints a s) = commitWaypoints a s ∧
    (a = s.waypoints → commitWaypoints a s = s) := by
  constructor
  · have hw : (commitWaypoints a s).waypoints = a := by
      unfold commitWaypoints
      by_cases hl : a = s.waypoints
      · simp [hl]
      · simp [hl]
    rw [commitWaypoints, if_pos hw.symm]
  · intro ha
    rw [commitWaypoints, if_pos ha]

/-- C5 witness: the double-commit law at a concrete list and the no-op
law at the initial state. -/
theorem commit_idempotent_witness :
    commitWaypoints [((1 : ℚ), (2 : ℚ))] (commitWaypoints [((1 : ℚ), (2 : ℚ))] (initHist [])) =
      commitWaypoints [((1 : ℚ), (2 : ℚ))] (initHist []) ∧
    commitWaypoints [] (initHist []) = initHist [] :=
  ⟨(commit_idempotent (initHist []) [((1 : ℚ), (2 : ℚ))]).1,
   (commit_idempotent (initHist []) []).2 (by decide)⟩

/-- C3 counterexample: on a route with exactly one point (fewer than 2),
`togglePlay` does mutate state - the guard in the source is
`routeCoordinatesRef.current.length > 0`, so it sets `isPlaying` and
schedules an animation frame. -/
theorem togglePlay_one_point_counterexample :
    (togglePlay [((0 : ℚ), (0 : ℚ))] idleAnimState).isPlaying = true ∧
    (togglePlay [((0 : ℚ), (0 : ℚ))] idleAnimState).frameScheduled = true := by
  constructor <;> rfl

/-- C3 amended: only the empty route is rejected with no state
mutation; the guard in `togglePlay` is `length > 0`, so from an idle
state with an empty stored route the call is a no-op (no playing flag,
no progress change, no scheduled frame). -/
theorem togglePlay_empty_noop (s : AnimState) (h : s.isPlaying = false) :
    togglePlay [] s = s := by
  rw [togglePlay, h]
  simp

/-- C3 witness: the no-op at the concrete idle state. -/
theorem togglePlay_empty_noop_witness : togglePlay [] idleAnimState = idleAnimState :=
  togglePlay_empty_noop idleAnimState rfl

/-- C9: the hit threshold equals
`max(minThreshold, baseThreshold * 2 ^ (referenceZoom - zoom))` with
`baseThreshold = 0.0005`, `minThreshold = 0.001`, `referenceZoom = 13`;
it never increases as zoom increases, is floored at `0.001`, and doubles
for each zoom step down within the exponential regime (`zoom ≤ 12`). -/
theorem hitThreshold_spec :
    (∀ z : ℤ, hitThreshold z = max (0.001 : ℚ) ((0.0005 : ℚ) * 2 ^ ((13 : ℤ) - z))) ∧
    (∀ z1 z2 : ℤ, z1 ≤ z2 → hitThreshold z2 ≤ hitThreshold z1) ∧
    (∀ z : ℤ, (0.001 : ℚ) ≤ hitThreshold z) ∧
    (∀ z : ℤ, z ≤ 12 → hitThreshold (z - 1) = 2 * hitThreshold z) := by
  have hpow : ∀ z : ℤ, z ≤ 12 → (0.001 : ℚ) ≤ (0.0005 : ℚ) * 2 ^ ((13 : ℤ) - z) := by
    intro z hz
    have h1 : (1 : ℤ) ≤ 13 - z := by omega
    have h2 : (2 : ℚ) ^ (1 : ℤ) ≤ 2 ^ ((13 : ℤ) - z) :=
      zpow_le_zpow_right₀ (by norm_num) h1
    have h3 : (2 : ℚ) ≤ 2 ^ ((13 : ℤ) - z) := by simpa using h2
    nlinarith
  refine ⟨fun z => rfl, ?_, fun z => le_max_left _ _, ?_⟩
  · intro z1 z2 h
    have h2 : (2 : ℚ) ^ ((13 : ℤ) - z2) ≤ 2 ^ ((13 : ℤ) - z1) :=
      zpow_le_zpow_right₀ (by norm_num) (by omega)
    unfold hitThreshold
    exact max_le_max le_rfl (by nlinarith)
  · intro z hz
    have hz1 : hitThreshold z = (0.0005 : ℚ) * 2 ^ ((13 : ℤ) - z) := by
      unfold hitThreshold
      exact max_eq_right (hpow z hz)
    have hz2 : hitThreshold (z - 1) = (0.0005 : ℚ) * 2 ^ ((13 : ℤ) - (z - 1)) := by
      unfold hitThreshold
      exact max_eq_right (hpow (z - 1) (by omega))
    rw [hz1, hz2]
    have : (13 : ℤ) - (z - 1) = ((13 : ℤ) - z) + 1 := by omega
    rw [this, zpow_add_one₀ (by norm_num : (2 : ℚ) ≠ 0)]
    ring

/-- C9 witness: the formula, monotonicity, floor and doubling at
concrete zoom levels. -/
theorem hitThreshold_spec_witness :
    hitThreshold 13 = max (0.001 : ℚ) ((0.0005 : ℚ) * 2 ^ ((13 : ℤ) - 13)) ∧
    hitThreshold 13 ≤ hitThreshold 11 ∧
    (0.001 : ℚ) ≤ hitThreshold 10 ∧
    hitThreshold 11 = 2 * hitThreshold 12 :=
  ⟨hitThreshold_spec.1 13,
   hitThreshold_spec.2.1 11 13 (by decide),
   hitThreshold_spec.2.2.1 10,
   hitThreshold_spec.2.2.2 12 (by decide)⟩

end RunMapper
